import Mathlib

/-!
Shallow embedding of the RestOh backend's table/slot reservation core.

Sources embedded here:
- `src/utils/timeSlots.js` (slot catalog),
- `src/utils/reservationHelpers.js` (time math, lead-time policies, update
  validator, table booking ledger, availability scan),
- `src/unnamed/part_006` (the mongoose `tableBookingSchema` slot validator),
- the `slot` guard of `updateUserReservation` in `src/examples/cloudinary-usage.js`.

Modelling conventions:
- A JavaScript `Date` is modelled by its `getTime()` value in milliseconds
  (`JsTime := Int`); local time is modelled with a fixed zero UTC offset and
  no daylight-saving jumps, so `setHours(0,0,0,0)` is flooring to a multiple
  of 86400000 ms.
- JavaScript numbers in this core are integers and exact rationals; they are
  modelled as `Int` and `Rat` (the hour difference is a division by 3600000).
- `Array.prototype.sort()` with no comparator sorts by the decimal string
  representation of the numbers; it is modelled by `List.mergeSort` over the
  string order on the decimal rendering (`jsLe`), which is a stable sort like
  the JS engines' sort.
- Fields that JavaScript leaves `undefined` are modelled with `Option`;
  JS truthiness of an optional numeric field is "present and nonzero".
-/

namespace RestOh

/-- Milliseconds in one day. -/
def dayMs : Int := 86400000

/-- Model of a JavaScript `Date`: its epoch millisecond value (`getTime()`). -/
abbrev JsTime := Int

/-- Model of `d.setHours(0, 0, 0, 0)`: local midnight of the day containing `t`
(floor to a multiple of `dayMs`; `Int.ediv` is floor division for a positive
divisor). -/
def atMidnight (t : JsTime) : JsTime := dayMs * (t.ediv dayMs)

/-- Model of `d.setHours(h, m, 0, 0)`. -/
def setHoursMinutes (t : JsTime) (h m : Int) : JsTime :=
  atMidnight t + (h * 60 + m) * 60000

/-- One entry of the slot catalog of `src/utils/timeSlots.js`. -/
structure TimeSlot where
  slot : Int
  label : String
deriving DecidableEq

/-- The static slot catalog `TIME_SLOTS` of `src/utils/timeSlots.js`. -/
def TIME_SLOTS : List TimeSlot :=
  [⟨1, "18:00"⟩, ⟨2, "18:30"⟩, ⟨3, "19:00"⟩, ⟨4, "19:30"⟩, ⟨5, "20:00"⟩,
   ⟨6, "20:30"⟩, ⟨7, "21:00"⟩, ⟨8, "21:30"⟩, ⟨9, "22:00"⟩]

/-- Model of `getSlotByNumber` (`TIME_SLOTS.find(s => s.slot === slotNumber) || null`). -/
def getSlotByNumber (slotNumber : Int) : Option TimeSlot :=
  TIME_SLOTS.find? (fun s => s.slot == slotNumber)

/-- Model of `isValidSlot` (`TIME_SLOTS.some(s => s.slot === slotNumber)`). -/
def isValidSlot (slotNumber : Int) : Bool :=
  TIME_SLOTS.any (fun s => s.slot == slotNumber)

/-- Result of `getTimeFromSlot`. -/
structure TimeComponents where
  hours : Int
  minutes : Int
deriving DecidableEq

/-- Digit value of a decimal character, the accepting step of `parseInt(s, 10)`. -/
def charDigit (c : Char) : Option Nat :=
  if ('0' ≤ c ∧ c ≤ '9') then some (c.toNat - '0'.toNat) else none

/-- Model of `parseInt(s, 10)` on a character list that starts with a digit:
consume decimal digits, stopping at the first non-digit (for the slot labels
the whole piece is digits). -/
def parseIntAcc : List Char → Nat → Nat
  | [], acc => acc
  | c :: cs, acc =>
    match charDigit c with
    | some d => parseIntAcc cs (acc * 10 + d)
    | none => acc

/-- Model of `parseInt(s, 10)` for the (all-digit) pieces of a slot label. -/
def parseIntModel (cs : List Char) : Int := (parseIntAcc cs 0 : Int)

/-- Model of `String.prototype.split(sep)` for a single-character separator,
on the character list of the string. -/
def splitOnChar (sep : Char) : List Char → List (List Char)
  | [] => [[]]
  | c :: cs =>
    if c = sep then [] :: splitOnChar sep cs
    else
      match splitOnChar sep cs with
      | [] => [[c]]
      | g :: gs => (c :: g) :: gs

/-- Model of `getTimeFromSlot`: look the slot up in the catalog, then
`label.split(':')` and `parseInt` the two pieces.  The catalog labels always
split into exactly two all-digit pieces, so the fallback branches (JS would
produce `NaN` there) are unreachable for this catalog. -/
def getTimeFromSlot (slotNumber : Int) : Option TimeComponents :=
  match getSlotByNumber slotNumber with
  | none => none
  | some s =>
    match splitOnChar ':' s.label.data with
    | h :: m :: _ => some ⟨parseIntModel h, parseIntModel m⟩
    | [h] => some ⟨parseIntModel h, 0⟩
    | [] => some ⟨0, 0⟩

/-- Model of `createReservationDateTime` (`src/utils/reservationHelpers.js`):
`new Date(date)` then `setHours` to the slot's time components, `null` when the
slot is invalid. -/
def createReservationDateTime (date : JsTime) (slotNumber : Int) : Option JsTime :=
  match getTimeFromSlot slotNumber with
  | none => none
  | some tc => some (setHoursMinutes date tc.hours tc.minutes)

/-- Model of `getHoursDifference`: `(later - earlier) / (1000*60*60)`, an exact
rational in this model. -/
def getHoursDifference (laterDate earlierDate : JsTime) : ℚ :=
  (((laterDate : ℚ) - (earlierDate : ℚ))) / (1000 * 60 * 60)

/-- Result shape of `canModifyReservation`. -/
structure ModifyCheck where
  canModify : Bool
  hoursUntil : ℚ
  message : Option String
deriving DecidableEq

/-- Model of `canModifyReservation` (1-hour-before rule); `now` is always the
explicit argument, matching the JS default parameter only being read when the
caller omits `now`. -/
def canModifyReservation (originalDate : JsTime) (originalSlot : Int) (now : JsTime) :
    ModifyCheck :=
  match createReservationDateTime originalDate originalSlot with
  | none => ⟨false, 0, some "Invalid original slot time"⟩
  | some originalDateTime =>
    let hoursUntil := getHoursDifference originalDateTime now
    if hoursUntil < 1 then
      ⟨false, hoursUntil, some "Cannot modify reservation less than 1 hour before the original time"⟩
    else
      ⟨true, hoursUntil, none⟩

/-- Result shape of `isValidNewReservationTime`. -/
structure NewTimeCheck where
  isValid : Bool
  hoursUntil : ℚ
  message : Option String
deriving DecidableEq

/-- Model of `isValidNewReservationTime` (1-hour-from-now rule). -/
def isValidNewReservationTime (newDate : JsTime) (newSlot : Int) (now : JsTime) :
    NewTimeCheck :=
  match createReservationDateTime newDate newSlot with
  | none => ⟨false, 0, some "Invalid new slot time"⟩
  | some newDateTime =>
    let hoursUntil := getHoursDifference newDateTime now
    if hoursUntil < 1 then
      ⟨false, hoursUntil, some "New reservation time must be at least 1 hour from now"⟩
    else
      ⟨true, hoursUntil, none⟩

/-- Result shape of `canCancelReservation`. -/
structure CancelCheck where
  canCancel : Bool
  hoursUntil : ℚ
  message : Option String
deriving DecidableEq

/-- Model of `canCancelReservation` (2-hours-before rule). -/
def canCancelReservation (reservationDate : JsTime) (slotNumber : Int) (now : JsTime) :
    CancelCheck :=
  match createReservationDateTime reservationDate slotNumber with
  | none => ⟨false, 0, some "Invalid reservation slot time"⟩
  | some reservationDateTime =>
    let hoursUntil := getHoursDifference reservationDateTime now
    if hoursUntil < 2 then
      ⟨false, hoursUntil, some "Reservations can only be cancelled at least 2 hours in advance"⟩
    else
      ⟨true, hoursUntil, none⟩

/-- The fields of a stored reservation that `validateReservationUpdate` reads. -/
structure Reservation where
  date : JsTime
  slot : Int
deriving DecidableEq

/-- The `updateData` argument of `validateReservationUpdate`: both fields may be
absent (`undefined`). -/
structure UpdateData where
  date : Option JsTime
  slot : Option Int
deriving DecidableEq

/-- JS truthiness of the optional `date` field: a `Date` object is always
truthy, so the field is truthy exactly when present. -/
def dateTruthy : Option JsTime → Bool
  | none => false
  | some _ => true

/-- JS truthiness of the optional numeric `slot` field: `0` and absence are
falsy. -/
def slotTruthy : Option Int → Bool
  | none => false
  | some n => n != 0

/-- Model of `updateData.date || reservation.date`. -/
def jsOrDate (o : Option JsTime) (dflt : JsTime) : JsTime :=
  match o with
  | none => dflt
  | some d => d

/-- Model of `updateData.slot || reservation.slot` (a present `0` is falsy and
falls back to the default). -/
def jsOrSlot (o : Option Int) (dflt : Int) : Int :=
  match o with
  | none => dflt
  | some n => if n = 0 then dflt else n

/-- Result shape of `validateReservationUpdate`. -/
structure ValidationResult where
  isValid : Bool
  errors : List String
deriving DecidableEq

/-- Model of `validateReservationUpdate`: check the 1-hour rule against the
current reservation; only when that passes and a new date or slot is proposed
(JS-truthily), check the proposed time, defaulting unchanged fields to the
current values.  The pushed `message` fields are present on every failing
check, so the `getD` default is unreachable. -/
def validateReservationUpdate (reservation : Reservation) (updateData : UpdateData)
    (now : JsTime) : ValidationResult :=
  let modifyCheck := canModifyReservation reservation.date reservation.slot now
  let errors0 : List String :=
    if modifyCheck.canModify then [] else [modifyCheck.message.getD "undefined"]
  let errors1 : List String :=
    if (dateTruthy updateData.date || slotTruthy updateData.slot) && modifyCheck.canModify then
      let newDate := jsOrDate updateData.date reservation.date
      let newSlot := jsOrSlot updateData.slot reservation.slot
      let newTimeCheck := isValidNewReservationTime newDate newSlot now
      if newTimeCheck.isValid then errors0 else errors0 ++ [newTimeCheck.message.getD "undefined"]
    else errors0
  ⟨errors1.isEmpty, errors1⟩

/-- The `slot` guard of `updateUserReservation`
(`if (slot && !isValidSlot(slot))` in `src/examples/cloudinary-usage.js`):
true exactly when the request is rejected with "Invalid slot number". -/
def updateSlotGuardRejects (slot : Option Int) : Bool :=
  slotTruthy slot && !(isValidSlot (slot.getD 0))

/-- Little-endian decimal digits of a positive natural number, with explicit
fuel to keep the recursion structural (the fuel `n` always suffices). -/
def decDigitsAux : Nat → Nat → List Nat
  | 0, _ => []
  | _ + 1, 0 => []
  | fuel + 1, n + 1 => ((n + 1) % 10) :: decDigitsAux fuel ((n + 1) / 10)

/-- Little-endian decimal digits of a natural number, rendering `0` as `[0]`. -/
def decDigits (n : Nat) : List Nat :=
  if n = 0 then [0] else decDigitsAux n n

/-- Decimal string of a natural number, most significant digit first. -/
def natDecimalString (n : Nat) : String :=
  ⟨(decDigits n).reverse.map Nat.digitChar⟩

/-- Model of `String(x)` for an integer JS number: its decimal rendering, with
a leading minus sign for negative values. -/
def jsNumberString (n : Int) : String :=
  if n < 0 then "-" ++ natDecimalString n.natAbs else natDecimalString n.natAbs

/-- Code-unit-wise (lexicographic) comparison of two character lists, the order
JavaScript's `<=` uses on strings. -/
def charListLe : List Char → List Char → Bool
  | [], _ => true
  | _ :: _, [] => false
  | a :: as, b :: bs => if a = b then charListLe as bs else decide (a < b)

/-- The comparison used by JavaScript's comparator-less `Array.prototype.sort`
on an array of numbers: lexicographic order of the decimal string renderings
(so, e.g., 10 sorts before 9). -/
def JsLeRel (a b : Int) : Prop :=
  charListLe (jsNumberString a).data (jsNumberString b).data = true

instance : DecidableRel JsLeRel :=
  fun a b => Bool.decEq (charListLe (jsNumberString a).data (jsNumberString b).data) true

/-- Model of comparator-less `bookedSlots.sort()`.  The engines' sort is stable
and sorts by `JsLeRel`; since the string rendering of integers is injective
(`jsNumberString_injective` below), ties of `JsLeRel` occur only between equal
integers, so the sorted permutation of an array is unique and any correct sort
— here Mathlib's insertion sort, chosen for kernel computability — produces
exactly the engine's result. -/
def jsSort (l : List Int) : List Int :=
  List.insertionSort JsLeRel l

/-- One `tableBookings` entry of a table document (`tableBookingSchema` in
`src/unnamed/part_006`): a stored date and the booked slot numbers for it. -/
structure TableBookingForDate where
  date : JsTime
  bookedSlots : List Int
deriving DecidableEq

/-- The fields of a table document (`tableSchema` in `src/unnamed/part_006`)
that the booking core reads and writes. -/
structure Table where
  tableNumber : Int
  capacity : Int
  isActive : Bool
  tableBookings : List TableBookingForDate
deriving DecidableEq

/-- The `bookedSlots` validator of `tableBookingSchema`
(`slots.every(slot => slot >= 1 && slot <= 9)`), which mongoose runs on save. -/
def bookedSlotsSchemaValid (slots : List Int) : Bool :=
  slots.all (fun slot => 1 ≤ slot && slot ≤ 9)

/-- Model of `getTableBookingsForDate`: normalize the query date and every
stored date to midnight and return the first entry for the same day. -/
def getTableBookingsForDate (table : Table) (date : JsTime) : Option TableBookingForDate :=
  let targetDate := atMidnight date
  table.tableBookings.find? (fun booking => atMidnight booking.date == targetDate)

/-- Model of `isTableSlotAvailable`: available when no booking row exists for
the date, or none of the 3 consecutive slots is already booked. -/
def isTableSlotAvailable (table : Table) (date : JsTime) (slot : Int) : Bool :=
  match getTableBookingsForDate table date with
  | none => true
  | some booking =>
    !(booking.bookedSlots.contains slot) &&
    !(booking.bookedSlots.contains (slot + 1)) &&
    !(booking.bookedSlots.contains (slot + 2))

/-- In-place mutation of the booking row that `getTableBookingsForDate` finds:
rewrite the `bookedSlots` of the first row whose midnight-normalized date is
`targetDate` (which the callers pass already normalized). -/
def updateFirstBooking (rows : List TableBookingForDate) (targetDate : JsTime)
    (f : List Int → List Int) : List TableBookingForDate :=
  match rows with
  | [] => []
  | r :: rest =>
    if atMidnight r.date == targetDate then ⟨r.date, f r.bookedSlots⟩ :: rest
    else r :: updateFirstBooking rest targetDate f

/-- Model of `addTableBooking`: normalize the date; when no row exists for it,
push a new row holding the 3-slot span; when a row exists and none of the three
slots is already present, push all three and `sort()` (string order); otherwise
leave the table unchanged.  The `table.save()` at the end is the caller's
persistence step and is not part of the in-memory transition modelled here. -/
def addTableBooking (table : Table) (date : JsTime) (slot : Int) : Table :=
  let targetDate := atMidnight date
  match getTableBookingsForDate table targetDate with
  | none =>
    { table with
      tableBookings := table.tableBookings ++ [⟨targetDate, [slot, slot + 1, slot + 2]⟩] }
  | some booking =>
    if !(booking.bookedSlots.contains slot) && !(booking.bookedSlots.contains (slot + 1)) &&
        !(booking.bookedSlots.contains (slot + 2)) then
      { table with
        tableBookings :=
          updateFirstBooking table.tableBookings targetDate
            (fun s => jsSort (s ++ [slot, slot + 1, slot + 2])) }
    else table

/-- Model of `removeTableBooking`: filter the 3-slot span out of the matching
row's `bookedSlots`; when the row becomes empty, drop from `tableBookings`
every row whose raw stored date equals the normalized target date (the source
compares `new Date(b.date).getTime()` to `targetDate.getTime()` without
re-normalizing the stored date). -/
def removeTableBooking (table : Table) (date : JsTime) (slot : Int) : Table :=
  let targetDate := atMidnight date
  match getTableBookingsForDate table targetDate with
  | none => table
  | some booking =>
    let newSlots := booking.bookedSlots.filter
      (fun s => s != slot && s != slot + 1 && s != slot + 2)
    let rows := updateFirstBooking table.tableBookings targetDate (fun _ => newSlots)
    if newSlots.length == 0 then
      { table with tableBookings := rows.filter (fun b => !(b.date == targetDate)) }
    else
      { table with tableBookings := rows }

/-- Result shape of `findAvailableTables`. -/
structure AvailabilityResult where
  availableTables : List Int
  occupiedTables : List Int
deriving DecidableEq

/-- Model of `findAvailableTables`: the stored tables are passed in place of the
`Table.find({ isActive: true, capacity: { $gte: 1 } })` query (whose filter is
applied here); the partition universe is the hardcoded `Array(12)` of table
numbers 1..12; `requiredCapacity` is accepted and ignored, as in the source. -/
def findAvailableTables (tables : List Table) (date : JsTime) (slot : Int)
    (requiredCapacity : Int) : AvailabilityResult :=
  let found := tables.filter (fun t => t.isActive && decide (1 ≤ t.capacity))
  let availableTables :=
    (found.filter (fun t => isTableSlotAvailable t date slot)).map (fun t => t.tableNumber)
  let allTables := (List.range 12).map (fun i => (i : Int) + 1)
  let occupiedTables := allTables.filter (fun x => !(availableTables.contains x))
  ⟨availableTables, occupiedTables⟩

/-- The stored tables of spec Scenario D: tables 1..12 active with capacity 4,
and only table 3 booked (span 5,6,7) on the scenario date (modelled as day 0). -/
def scenarioTables : List Table :=
  [⟨1, 4, true, []⟩, ⟨2, 4, true, []⟩, ⟨3, 4, true, [⟨0, [5, 6, 7]⟩]⟩, ⟨4, 4, true, []⟩,
   ⟨5, 4, true, []⟩, ⟨6, 4, true, []⟩, ⟨7, 4, true, []⟩, ⟨8, 4, true, []⟩,
   ⟨9, 4, true, []⟩, ⟨10, 4, true, []⟩, ⟨11, 4, true, []⟩, ⟨12, 4, true, []⟩]

/-- Valuation of a little-endian decimal digit list. -/
def digitsVal : List Nat → Nat
  | [] => 0
  | d :: ds => d + 10 * digitsVal ds

/-!
Properties of the decimal rendering and of the string order, establishing that
`JsLeRel` is a computable linear order on `Int` (total, transitive and
antisymmetric), which pins the result of `jsSort` down as the unique sorted
permutation of its input.
-/

lemma charListLe_total (u v : List Char) : charListLe u v = true ∨ charListLe v u = true := by
  induction u generalizing v with
  | nil => exact Or.inl rfl
  | cons a as ih =>
    cases v with
    | nil => exact Or.inr rfl
    | cons b bs =>
      by_cases hab : a = b
      · subst hab
        rcases ih bs with h | h
        · exact Or.inl (by simpa [charListLe] using h)
        · exact Or.inr (by simpa [charListLe] using h)
      · rcases lt_or_gt_of_ne hab with h | h
        · exact Or.inl (by simp [charListLe, hab, h])
        · exact Or.inr (by simp [charListLe, Ne.symm hab, h])

lemma charListLe_trans (u v w : List Char) (h1 : charListLe u v = true)
    (h2 : charListLe v w = true) : charListLe u w = true := by
  induction u generalizing v w with
  | nil => rfl
  | cons a as ih =>
    cases v with
    | nil => simp [charListLe] at h1
    | cons b bs =>
      cases w with
      | nil => simp [charListLe] at h2
      | cons c cs =>
        by_cases hab : a = b
        · subst hab
          simp only [charListLe, if_pos rfl] at h1
          by_cases hbc : a = c
          · subst hbc
            simp only [charListLe, if_pos rfl] at h2 ⊢
            exact ih bs cs h1 h2
          · simp only [charListLe, if_neg hbc, decide_eq_true_eq] at h2 ⊢
            exact h2
        · simp only [charListLe, if_neg hab, decide_eq_true_eq] at h1
          by_cases hbc : b = c
          · subst hbc
            simp [charListLe, if_neg hab, decide_eq_true_eq, h1]
          · simp only [charListLe, if_neg hbc, decide_eq_true_eq] at h2
            have hac : a < c := lt_trans h1 h2
            simp [charListLe, ne_of_lt hac, hac]

lemma charListLe_antisymm (u v : List Char) (h1 : charListLe u v = true)
    (h2 : charListLe v u = true) : u = v := by
  induction u generalizing v with
  | nil =>
    cases v with
    | nil => rfl
    | cons b bs => simp [charListLe] at h2
  | cons a as ih =>
    cases v with
    | nil => simp [charListLe] at h1
    | cons b bs =>
      by_cases hab : a = b
      · subst hab
        simp only [charListLe, if_pos rfl] at h1 h2
        exact congrArg _ (ih bs h1 h2)
      · simp only [charListLe, if_neg hab, decide_eq_true_eq] at h1
        simp only [charListLe, if_neg (Ne.symm hab), decide_eq_true_eq] at h2
        exact absurd h2 (lt_asymm h1)

lemma digitsVal_decDigitsAux (fuel : Nat) : ∀ n : Nat, n ≤ fuel →
    digitsVal (decDigitsAux fuel n) = n := by
  induction fuel with
  | zero =>
    intro n hn
    interval_cases n
    rfl
  | succ f ih =>
    intro n hn
    match n with
    | 0 => rfl
    | m + 1 =>
      have hlt : (m + 1) / 10 < m + 1 := Nat.div_lt_self (Nat.succ_pos m) (by norm_num)
      have hdiv : (m + 1) / 10 ≤ f := by omega
      simp only [decDigitsAux, digitsVal, ih _ hdiv]
      exact Nat.mod_add_div (m + 1) 10

lemma digitsVal_decDigits (n : Nat) : digitsVal (decDigits n) = n := by
  by_cases h : n = 0
  · subst h; rfl
  · simp [decDigits, h, digitsVal_decDigitsAux n n le_rfl]

lemma decDigits_injective : Function.Injective decDigits := by
  intro m n h
  have hm := digitsVal_decDigits m
  rw [h, digitsVal_decDigits] at hm
  omega

lemma decDigitsAux_lt_ten (fuel : Nat) : ∀ n d : Nat, d ∈ decDigitsAux fuel n → d < 10 := by
  induction fuel with
  | zero => intro n d hd; simp [decDigitsAux] at hd
  | succ f ih =>
    intro n d hd
    match n with
    | 0 => simp [decDigitsAux] at hd
    | m + 1 =>
      simp only [decDigitsAux, List.mem_cons] at hd
      rcases hd with h | h
      · subst h; exact Nat.mod_lt _ (by norm_num)
      · exact ih _ _ h

lemma decDigits_lt_ten (n d : Nat) (hd : d ∈ decDigits n) : d < 10 := by
  by_cases h : n = 0
  · subst h; simp [decDigits] at hd; omega
  · exact decDigitsAux_lt_ten n n d (by simpa [decDigits, h] using hd)

lemma digitChar_inj_of_lt_ten (a b : Nat) (ha : a < 10) (hb : b < 10)
    (h : Nat.digitChar a = Nat.digitChar b) : a = b := by
  have key : ∀ x y : Fin 10, Nat.digitChar x.val = Nat.digitChar y.val → x = y := by decide
  have := key ⟨a, ha⟩ ⟨b, hb⟩ h
  exact congrArg Fin.val this

lemma map_digitChar_inj (u : List Nat) : ∀ v : List Nat, (∀ d ∈ u, d < 10) →
    (∀ d ∈ v, d < 10) → u.map Nat.digitChar = v.map Nat.digitChar → u = v := by
  induction u with
  | nil =>
    intro v _ _ h
    cases v with
    | nil => rfl
    | cons b bs => simp at h
  | cons a as ih =>
    intro v hu hv h
    cases v with
    | nil => simp at h
    | cons b bs =>
      simp only [List.map_cons, List.cons.injEq] at h
      have hab := digitChar_inj_of_lt_ten a b (hu a (by simp)) (hv b (by simp)) h.1
      have htail := ih bs (fun d hd => hu d (by simp [hd])) (fun d hd => hv d (by simp [hd])) h.2
      rw [hab, htail]

lemma natDecimalString_injective : Function.Injective natDecimalString := by
  intro m n h
  have hdata : (decDigits m).reverse.map Nat.digitChar = (decDigits n).reverse.map Nat.digitChar :=
    congrArg String.data h
  have hrev : (decDigits m).reverse = (decDigits n).reverse := by
    refine map_digitChar_inj _ _ ?_ ?_ hdata
    · intro d hd; exact decDigits_lt_ten m d (List.mem_reverse.mp hd)
    · intro d hd; exact decDigits_lt_ten n d (List.mem_reverse.mp hd)
  exact decDigits_injective (List.reverse_injective hrev)

lemma decDigits_ne_nil (n : Nat) : decDigits n ≠ [] := by
  by_cases h : n = 0
  · subst h; simp [decDigits]
  · match n, h with
    | m + 1, _ => simp [decDigits, decDigitsAux]

lemma natDecimalString_head (n : Nat) :
    ∃ d l, (natDecimalString n).data = Nat.digitChar d :: l ∧ d < 10 := by
  have hne : (decDigits n).reverse ≠ [] := by
    simpa using decDigits_ne_nil n
  match hrev : (decDigits n).reverse with
  | [] => exact absurd hrev hne
  | d :: ds =>
    refine ⟨d, ds.map Nat.digitChar, ?_, ?_⟩
    · show ((decDigits n).reverse.map Nat.digitChar) = _
      rw [hrev, List.map_cons]
    · have : d ∈ decDigits n := by
        have : d ∈ (decDigits n).reverse := by rw [hrev]; simp
        exact List.mem_reverse.mp this
      exact decDigits_lt_ten n d this

lemma digitChar_ne_minus (d : Nat) (hd : d < 10) : Nat.digitChar d ≠ '-' := by
  have key : ∀ x : Fin 10, Nat.digitChar x.val ≠ '-' := by decide
  exact key ⟨d, hd⟩

lemma jsNumberString_injective : Function.Injective jsNumberString := by
  intro a b h
  unfold jsNumberString at h
  by_cases ha : a < 0 <;> by_cases hb : b < 0
  · rw [if_pos ha, if_pos hb] at h
    have hdata := congrArg String.data h
    simp only [String.data_append] at hdata
    have : (natDecimalString a.natAbs).data = (natDecimalString b.natAbs).data := by
      simpa using hdata
    have habs : a.natAbs = b.natAbs := by
      apply natDecimalString_injective
      cases hA : natDecimalString a.natAbs
      cases hB : natDecimalString b.natAbs
      rw [hA, hB] at this
      exact congrArg String.mk (by simpa using this)
    omega
  · exfalso
    rw [if_pos ha, if_neg hb] at h
    obtain ⟨d, l, hd, hdlt⟩ := natDecimalString_head b.natAbs
    have hdata := congrArg String.data h
    simp only [String.data_append, hd] at hdata
    have : '-' = Nat.digitChar d := by
      have hmd : ('-' : Char) :: (natDecimalString a.natAbs).data = Nat.digitChar d :: l := by
        simpa using hdata
      exact (List.cons.injEq _ _ _ _ ▸ hmd).1
    exact digitChar_ne_minus d hdlt this.symm
  · exfalso
    rw [if_neg ha, if_pos hb] at h
    obtain ⟨d, l, hd, hdlt⟩ := natDecimalString_head a.natAbs
    have hdata := congrArg String.data h
    simp only [String.data_append, hd] at hdata
    have : Nat.digitChar d = '-' := by
      have hmd : Nat.digitChar d :: l = ('-' : Char) :: (natDecimalString b.natAbs).data := by
        simpa using hdata
      exact (List.cons.injEq _ _ _ _ ▸ hmd).1
    exact digitChar_ne_minus d hdlt this
  · rw [if_neg ha, if_neg hb] at h
    have habs := natDecimalString_injective h
    omega

instance : IsTotal Int JsLeRel :=
  ⟨fun a b => charListLe_total (jsNumberString a).data (jsNumberString b).data⟩

instance : IsTrans Int JsLeRel :=
  ⟨fun a b c h1 h2 => charListLe_trans _ _ _ h1 h2⟩

instance : IsAntisymm Int JsLeRel := by
  refine ⟨fun a b h1 h2 => ?_⟩
  have hdata := charListLe_antisymm _ _ h1 h2
  have hstr : jsNumberString a = jsNumberString b := by
    cases hA : jsNumberString a
    cases hB : jsNumberString b
    rw [hA, hB] at hdata
    exact congrArg String.mk (by simpa using hdata)
  exact jsNumberString_injective hstr

lemma jsSort_perm (l : List Int) : (jsSort l).Perm l :=
  List.perm_insertionSort JsLeRel l

lemma jsSort_sorted (l : List Int) : List.Sorted JsLeRel (jsSort l) :=
  List.sorted_insertionSort JsLeRel l

/-! Basic facts about date normalization and the booking-row helpers. -/

lemma atMidnight_idem (t : JsTime) : atMidnight (atMidnight t) = atMidnight t :=
  congrArg (fun x => dayMs * x)
    (@Int.mul_ediv_cancel_left dayMs (t.ediv dayMs) (by norm_num [dayMs]))

lemma getTableBookingsForDate_norm (table : Table) (d : JsTime) :
    getTableBookingsForDate table (atMidnight d) = getTableBookingsForDate table d := by
  unfold getTableBookingsForDate
  rw [atMidnight_idem]

lemma contains_eq_mem (l : List Int) (a : Int) : l.contains a = decide (a ∈ l) :=
  List.elem_eq_mem a l

lemma updateFirstBooking_of_all_ne (rows : List TableBookingForDate) (td : JsTime)
    (f : List Int → List Int) (h : ∀ r ∈ rows, (atMidnight r.date == td) = false) :
    updateFirstBooking rows td f = rows := by
  induction rows with
  | nil => rfl
  | cons r rest ih =>
    have hr := h r (by simp)
    simp only [updateFirstBooking, hr, Bool.false_eq_true, if_false]
    rw [ih (fun x hx => h x (List.mem_cons_of_mem _ hx))]

lemma updateFirstBooking_find (rows : List TableBookingForDate) (td : JsTime)
    (f : List Int → List Int) (b : TableBookingForDate)
    (h : rows.find? (fun x => atMidnight x.date == td) = some b) :
    (updateFirstBooking rows td f).find? (fun x => atMidnight x.date == td) =
      some ⟨b.date, f b.bookedSlots⟩ := by
  induction rows with
  | nil => simp at h
  | cons r rest ih =>
    by_cases hr : (atMidnight r.date == td) = true
    · rw [@List.find?_cons_of_pos _ (fun x : TableBookingForDate => atMidnight x.date == td)
        r rest hr] at h
      injection h with hb
      subst hb
      simp only [updateFirstBooking, if_pos hr]
      exact @List.find?_cons_of_pos _ (fun x : TableBookingForDate => atMidnight x.date == td)
        ⟨r.date, f r.bookedSlots⟩ rest hr
    · rw [@List.find?_cons_of_neg _ (fun x : TableBookingForDate => atMidnight x.date == td)
        r rest hr] at h
      simp only [updateFirstBooking, if_neg hr]
      rw [@List.find?_cons_of_neg _ (fun x : TableBookingForDate => atMidnight x.date == td)
        r (updateFirstBooking rest td f) hr]
      exact ih h

lemma updateFirstBooking_comp (rows : List TableBookingForDate) (td : JsTime)
    (f g : List Int → List Int) :
    updateFirstBooking (updateFirstBooking rows td f) td g =
      updateFirstBooking rows td (fun s => g (f s)) := by
  induction rows with
  | nil => rfl
  | cons r rest ih =>
    by_cases hr : (atMidnight r.date == td) = true
    · simp only [updateFirstBooking, if_pos hr]
    · simp only [updateFirstBooking, if_neg hr, ih]

lemma updateFirstBooking_self (rows : List TableBookingForDate) (td : JsTime)
    (f : List Int → List Int) (b : TableBookingForDate)
    (hfind : rows.find? (fun x => atMidnight x.date == td) = some b)
    (hf : f b.bookedSlots = b.bookedSlots) :
    updateFirstBooking rows td f = rows := by
  induction rows with
  | nil => simp at hfind
  | cons r rest ih =>
    by_cases hr : (atMidnight r.date == td) = true
    · rw [@List.find?_cons_of_pos _ (fun x : TableBookingForDate => atMidnight x.date == td)
        r rest hr] at hfind
      injection hfind with hb
      subst hb
      simp only [updateFirstBooking, if_pos hr, hf]
    · rw [@List.find?_cons_of_neg _ (fun x : TableBookingForDate => atMidnight x.date == td)
        r rest hr] at hfind
      simp only [updateFirstBooking, if_neg hr, ih hfind]

lemma updateFirstBooking_filter_ne (rows : List TableBookingForDate) (td : JsTime)
    (f : List Int → List Int) :
    (updateFirstBooking rows td f).filter (fun r => !(atMidnight r.date == td)) =
      rows.filter (fun r => !(atMidnight r.date == td)) := by
  induction rows with
  | nil => rfl
  | cons r rest ih =>
    by_cases hr : (atMidnight r.date == td) = true
    · simp only [updateFirstBooking, if_pos hr]
      rw [@List.filter_cons_of_neg _ (fun x : TableBookingForDate => !(atMidnight x.date == td))
          ⟨r.date, f r.bookedSlots⟩ rest (by simp [hr]),
        @List.filter_cons_of_neg _ (fun x : TableBookingForDate => !(atMidnight x.date == td))
          r rest (by simp [hr])]
    · simp only [updateFirstBooking, if_neg hr, List.filter_cons]
      rw [ih]

lemma addTableBooking_of_none (table : Table) (d : JsTime) (s : Int)
    (h : getTableBookingsForDate table d = none) :
    addTableBooking table d s =
      { table with tableBookings :=
          table.tableBookings ++ [⟨atMidnight d, [s, s + 1, s + 2]⟩] } := by
  simp only [addTableBooking, getTableBookingsForDate_norm, h]

lemma getTableBookingsForDate_after_add_none (table : Table) (d : JsTime) (s : Int)
    (h : getTableBookingsForDate table d = none) :
    getTableBookingsForDate (addTableBooking table d s) d =
      some ⟨atMidnight d, [s, s + 1, s + 2]⟩ := by
  rw [addTableBooking_of_none table d s h]
  unfold getTableBookingsForDate at h ⊢
  simp only [List.find?_append, h, Option.none_or]
  simp [List.find?, atMidnight_idem]

lemma addTableBooking_fields (table : Table) (d : JsTime) (s : Int) :
    (addTableBooking table d s).tableNumber = table.tableNumber ∧
    (addTableBooking table d s).capacity = table.capacity ∧
    (addTableBooking table d s).isActive = table.isActive := by
  simp only [addTableBooking]
  split
  · simp
  · split <;> simp

lemma removeTableBooking_fields (table : Table) (d : JsTime) (s : Int) :
    (removeTableBooking table d s).tableNumber = table.tableNumber ∧
    (removeTableBooking table d s).capacity = table.capacity ∧
    (removeTableBooking table d s).isActive = table.isActive := by
  simp only [removeTableBooking]
  split
  · simp
  · split <;> simp

lemma addTableBooking_filter_frame (table : Table) (d : JsTime) (s : Int) :
    (addTableBooking table d s).tableBookings.filter
        (fun r => !(atMidnight r.date == atMidnight d)) =
      table.tableBookings.filter (fun r => !(atMidnight r.date == atMidnight d)) := by
  simp only [addTableBooking]
  split
  · simp [List.filter_append, atMidnight_idem]
  · split
    · simpa using updateFirstBooking_filter_ne table.tableBookings (atMidnight d) _
    · rfl

lemma removeTableBooking_filter_frame (table : Table) (d : JsTime) (s : Int) :
    (removeTableBooking table d s).tableBookings.filter
        (fun r => !(atMidnight r.date == atMidnight d)) =
      table.tableBookings.filter (fun r => !(atMidnight r.date == atMidnight d)) := by
  simp only [removeTableBooking]
  split
  · rfl
  · split
    · rw [List.filter_filter]
      rw [List.filter_congr (q := fun r => !(atMidnight r.date == atMidnight d)) ?_]
      · exact updateFirstBooking_filter_ne table.tableBookings (atMidnight d) _
      · intro x _
        rcases Bool.eq_false_or_eq_true (x.date == atMidnight d) with hraw | hraw
        · have hxd : x.date = atMidnight d := by simpa using hraw
          simp [hraw, hxd, atMidnight_idem]
        · simp [hraw]
    · exact updateFirstBooking_filter_ne table.tableBookings (atMidnight d) _

lemma addTableBooking_of_some_taken (table : Table) (d : JsTime) (s : Int)
    (b : TableBookingForDate) (h : getTableBookingsForDate table d = some b)
    (htaken : s ∈ b.bookedSlots ∨ s + 1 ∈ b.bookedSlots ∨ s + 2 ∈ b.bookedSlots) :
    addTableBooking table d s = table := by
  have hn : getTableBookingsForDate table (atMidnight d) = some b := by
    rw [getTableBookingsForDate_norm]; exact h
  simp only [addTableBooking, hn]
  rcases htaken with hm | hm | hm <;> simp [contains_eq_mem, hm]

lemma addTableBooking_of_some_free (table : Table) (d : JsTime) (s : Int)
    (b : TableBookingForDate) (h : getTableBookingsForDate table d = some b)
    (h1 : s ∉ b.bookedSlots) (h2 : s + 1 ∉ b.bookedSlots) (h3 : s + 2 ∉ b.bookedSlots) :
    addTableBooking table d s =
      { table with tableBookings :=
          (updateFirstBooking table.tableBookings (atMidnight d)
            (fun bs => jsSort (bs ++ [s, s + 1, s + 2]))) } := by
  have hn : getTableBookingsForDate table (atMidnight d) = some b := by
    rw [getTableBookingsForDate_norm]; exact h
  simp only [addTableBooking, hn]
  simp [contains_eq_mem, h1, h2, h3]

lemma getTableBookingsForDate_after_add_free (table : Table) (d : JsTime) (s : Int)
    (b : TableBookingForDate) (h : getTableBookingsForDate table d = some b)
    (h1 : s ∉ b.bookedSlots) (h2 : s + 1 ∉ b.bookedSlots) (h3 : s + 2 ∉ b.bookedSlots) :
    getTableBookingsForDate (addTableBooking table d s) d =
      some ⟨b.date, jsSort (b.bookedSlots ++ [s, s + 1, s + 2])⟩ := by
  rw [addTableBooking_of_some_free table d s b h h1 h2 h3]
  exact updateFirstBooking_find table.tableBookings (atMidnight d) _ b h

/-- C7: double-booking the same (date, slot) is a no-op: after the first
`addTableBooking` at least one of the three span slots is present in the date's
row, so the second identical call returns the table unchanged. -/
theorem addTableBooking_idem (table : Table) (d : JsTime) (s : Int) :
    addTableBooking (addTableBooking table d s) d s = addTableBooking table d s ∧
    ∃ b, getTableBookingsForDate (addTableBooking table d s) d = some b ∧
      (s ∈ b.bookedSlots ∨ s + 1 ∈ b.bookedSlots ∨ s + 2 ∈ b.bookedSlots) := by
  cases h : getTableBookingsForDate table d with
  | none =>
    have hadd := getTableBookingsForDate_after_add_none table d s h
    refine ⟨?_, ⟨_, hadd, Or.inl (by simp)⟩⟩
    apply addTableBooking_of_some_taken _ _ _ _ hadd
    exact Or.inl (by simp)
  | some b =>
    by_cases htaken : s ∈ b.bookedSlots ∨ s + 1 ∈ b.bookedSlots ∨ s + 2 ∈ b.bookedSlots
    · have hnoop := addTableBooking_of_some_taken table d s b h htaken
      rw [hnoop]
      exact ⟨hnoop, ⟨b, h, htaken⟩⟩
    · push_neg at htaken
      obtain ⟨h1, h2, h3⟩ := htaken
      have hfind2 := getTableBookingsForDate_after_add_free table d s b h h1 h2 h3
      have hs : s ∈ jsSort (b.bookedSlots ++ [s, s + 1, s + 2]) :=
        (jsSort_perm _).mem_iff.mpr (by simp)
      refine ⟨?_, ⟨_, hfind2, Or.inl hs⟩⟩
      exact addTableBooking_of_some_taken _ _ _ _ hfind2 (Or.inl hs)

/-! Lemmas for the add-then-remove round trip. -/

lemma span_filter_nil (s : Int) :
    ([s, s + 1, s + 2].filter (fun x => x != s && x != s + 1 && x != s + 2)) = [] := by
  have e1 : (s != s) = false := by simp
  have e2 : ((s + 1) != (s + 1)) = false := by simp
  have e3 : ((s + 2) != (s + 2)) = false := by simp
  simp [List.filter, e1, e2, e3]

lemma filter_span_of_free (bs : List Int) (s : Int) (h1 : s ∉ bs) (h2 : s + 1 ∉ bs)
    (h3 : s + 2 ∉ bs) :
    bs.filter (fun x => x != s && x != s + 1 && x != s + 2) = bs := by
  apply List.filter_eq_self.mpr
  intro a ha
  have n1 : a ≠ s := fun e => h1 (e ▸ ha)
  have n2 : a ≠ s + 1 := fun e => h2 (e ▸ ha)
  have n3 : a ≠ s + 2 := fun e => h3 (e ▸ ha)
  simp [n1, n2, n3]

lemma filter_jsSort_span (bs : List Int) (s : Int) (h1 : s ∉ bs) (h2 : s + 1 ∉ bs)
    (h3 : s + 2 ∉ bs) (hsort : List.Sorted JsLeRel bs) :
    (jsSort (bs ++ [s, s + 1, s + 2])).filter
      (fun x => x != s && x != s + 1 && x != s + 2) = bs := by
  have hperm :
      ((jsSort (bs ++ [s, s + 1, s + 2])).filter
        (fun x => x != s && x != s + 1 && x != s + 2)).Perm
      ((bs ++ [s, s + 1, s + 2]).filter (fun x => x != s && x != s + 1 && x != s + 2)) :=
    (jsSort_perm _).filter _
  rw [List.filter_append, span_filter_nil, filter_span_of_free bs s h1 h2 h3,
    List.append_nil] at hperm
  have hsorted := (jsSort_sorted (bs ++ [s, s + 1, s + 2])).filter
    (fun x => x != s && x != s + 1 && x != s + 2)
  exact List.eq_of_perm_of_sorted hperm hsorted hsort

lemma updateFirstBooking_append (rows₁ rows₂ : List TableBookingForDate) (td : JsTime)
    (f : List Int → List Int) (h : ∀ r ∈ rows₁, (atMidnight r.date == td) = false) :
    updateFirstBooking (rows₁ ++ rows₂) td f = rows₁ ++ updateFirstBooking rows₂ td f := by
  induction rows₁ with
  | nil => rfl
  | cons r rest ih =>
    have hr := h r (by simp)
    simp only [List.cons_append, updateFirstBooking, hr, Bool.false_eq_true, if_false]
    exact congrArg (fun l => r :: l) (ih (fun x hx => h x (List.mem_cons_of_mem _ hx)))

/-- C3 (amended): when the date-d row, if present, contains
none of `s`, `s+1`, `s+2`, is nonempty, and its `bookedSlots` are sorted in the
code's string sort order (as every row the API itself produces is), then
`addTableBooking` followed by `removeTableBooking` with the same date and slot
restores the table exactly; in particular when no row existed for the date, the
row the add created is removed entirely. -/
theorem addRemove_roundtrip (table : Table) (d : JsTime) (s : Int)
    (h : ∀ b, getTableBookingsForDate table d = some b →
      s ∉ b.bookedSlots ∧ s + 1 ∉ b.bookedSlots ∧ s + 2 ∉ b.bookedSlots ∧
        b.bookedSlots ≠ [] ∧ List.Sorted JsLeRel b.bookedSlots) :
    removeTableBooking (addTableBooking table d s) d s = table := by
  cases hfind : getTableBookingsForDate table d with
  | none =>
    have hadd := getTableBookingsForDate_after_add_none table d s hfind
    have haddnorm : getTableBookingsForDate (addTableBooking table d s) (atMidnight d) =
        some ⟨atMidnight d, [s, s + 1, s + 2]⟩ := by
      rw [getTableBookingsForDate_norm]; exact hadd
    have hall : ∀ r ∈ table.tableBookings, (atMidnight r.date == atMidnight d) = false := by
      intro r hr
      have := List.find?_eq_none.mp hfind r hr
      simpa using this
    simp only [removeTableBooking, haddnorm, span_filter_nil, List.length_nil]
    rw [addTableBooking_of_none table d s hfind]
    simp only
    rw [updateFirstBooking_append table.tableBookings _ (atMidnight d) _ hall]
    simp only [updateFirstBooking, atMidnight_idem, beq_self_eq_true, if_true]
    rw [List.filter_append]
    have hfself : table.tableBookings.filter (fun b => !(b.date == atMidnight d)) =
        table.tableBookings := by
      apply List.filter_eq_self.mpr
      intro r hr
      rcases Bool.eq_false_or_eq_true (r.date == atMidnight d) with hraw | hraw
      · have hrd : r.date = atMidnight d := by simpa using hraw
        have := hall r hr
        rw [hrd, atMidnight_idem] at this
        simp at this
      · simp [hraw]
    rw [hfself]
    simp

  | some b =>
    obtain ⟨h1, h2, h3, hne, hsort⟩ := h b hfind
    have hfind2 : getTableBookingsForDate (addTableBooking table d s) (atMidnight d) =
        some ⟨b.date, jsSort (b.bookedSlots ++ [s, s + 1, s + 2])⟩ := by
      rw [getTableBookingsForDate_norm]
      exact getTableBookingsForDate_after_add_free table d s b hfind h1 h2 h3
    simp only [removeTableBooking, hfind2]
    rw [filter_jsSort_span b.bookedSlots s h1 h2 h3 hsort]
    have hlen : (b.bookedSlots.length == 0) = false := by
      rcases Bool.eq_false_or_eq_true (b.bookedSlots.length == 0) with hl | hl
      · exfalso
        have : b.bookedSlots = [] := List.length_eq_zero.mp (by simpa using hl)
        exact hne this
      · exact hl
    simp only [hlen, Bool.false_eq_true, if_false]
    rw [addTableBooking_of_some_free table d s b hfind h1 h2 h3]
    simp only
    rw [updateFirstBooking_comp]
    rw [updateFirstBooking_self table.tableBookings (atMidnight d) _ b hfind rfl]

/-- C3 counterexample: with a pre-existing row `[6]` for the date, the add at
slot 5 is a silent no-op (6 is in the span), but the remove still deletes 6
and prunes the row, so the round trip does not restore the pre-add
`bookedSlots`. -/
theorem addRemove_roundtrip_counterexample :
    getTableBookingsForDate (⟨3, 4, true, [⟨0, [6]⟩]⟩ : Table) 0 = some ⟨0, [6]⟩ ∧
    getTableBookingsForDate
      (removeTableBooking (addTableBooking ⟨3, 4, true, [⟨0, [6]⟩]⟩ 0 5) 0 5) 0 = none := by
  decide

/-- C3 witness: the round trip evaluated on a concrete table whose date row is
span-free, nonempty and sorted. -/
theorem addRemove_roundtrip_witness :
    removeTableBooking (addTableBooking ⟨3, 4, true, [⟨0, [1, 2, 3]⟩]⟩ 0 5) 0 5 =
      (⟨3, 4, true, [⟨0, [1, 2, 3]⟩]⟩ : Table) := by
  apply addRemove_roundtrip
  intro b hb
  have hfind : getTableBookingsForDate (⟨3, 4, true, [⟨0, [1, 2, 3]⟩]⟩ : Table) 0 =
      some ⟨0, [1, 2, 3]⟩ := by decide
  rw [hfind] at hb
  have hbeq : (⟨0, [1, 2, 3]⟩ : TableBookingForDate) = b := Option.some.inj hb
  subst hbeq
  refine ⟨by decide, by decide, by decide, by decide, by decide⟩

/-- C9: `addTableBooking` and `removeTableBooking` only touch the booking row
for the normalized target date: every row for a different calendar day survives
unchanged (and in order), and the table's `tableNumber`, `capacity` and
`isActive` fields are untouched. -/
theorem bookingOps_frame (table : Table) (d : JsTime) (s : Int) :
    (addTableBooking table d s).tableNumber = table.tableNumber ∧
    (addTableBooking table d s).capacity = table.capacity ∧
    (addTableBooking table d s).isActive = table.isActive ∧
    (addTableBooking table d s).tableBookings.filter
        (fun r => !(atMidnight r.date == atMidnight d)) =
      table.tableBookings.filter (fun r => !(atMidnight r.date == atMidnight d)) ∧
    (removeTableBooking table d s).tableNumber = table.tableNumber ∧
    (removeTableBooking table d s).capacity = table.capacity ∧
    (removeTableBooking table d s).isActive = table.isActive ∧
    (removeTableBooking table d s).tableBookings.filter
        (fun r => !(atMidnight r.date == atMidnight d)) =
      table.tableBookings.filter (fun r => !(atMidnight r.date == atMidnight d)) :=
  ⟨(addTableBooking_fields table d s).1, (addTableBooking_fields table d s).2.1,
    (addTableBooking_fields table d s).2.2, addTableBooking_filter_frame table d s,
    (removeTableBooking_fields table d s).1, (removeTableBooking_fields table d s).2.1,
    (removeTableBooking_fields table d s).2.2, removeTableBooking_filter_frame table d s⟩

/-- C1: `isTableSlotAvailable` is true exactly when no booking row exists for
the (midnight-normalized) date or none of `slot`, `slot+1`, `slot+2` occurs in
that row's `bookedSlots`; and on a table with no row for the date, after
`addTableBooking` at slot 5 the availability checks at slots 4, 5, 6, 7 are
false while the check at slot 8 is true. -/
theorem isTableSlotAvailable_spec (table : Table) (d : JsTime) (s : Int) :
    (isTableSlotAvailable table d s = true ↔
      (getTableBookingsForDate table d = none ∨
        ∃ b, getTableBookingsForDate table d = some b ∧
          s ∉ b.bookedSlots ∧ s + 1 ∉ b.bookedSlots ∧ s + 2 ∉ b.bookedSlots)) ∧
    (getTableBookingsForDate table d = none →
      isTableSlotAvailable (addTableBooking table d 5) d 4 = false ∧
      isTableSlotAvailable (addTableBooking table d 5) d 5 = false ∧
      isTableSlotAvailable (addTableBooking table d 5) d 6 = false ∧
      isTableSlotAvailable (addTableBooking table d 5) d 7 = false ∧
      isTableSlotAvailable (addTableBooking table d 5) d 8 = true) := by
  constructor
  · cases h : getTableBookingsForDate table d with
    | none => simp [isTableSlotAvailable, h]
    | some b =>
      simp only [isTableSlotAvailable, h, contains_eq_mem]
      constructor
      · intro hb
        right
        refine ⟨b, rfl, ?_⟩
        simpa [and_assoc] using hb
      · rintro (hnone | ⟨b2, hb2, hmem⟩)
        · exact absurd hnone (by simp)
        · injection hb2 with hb2
          subst hb2
          simpa [and_assoc] using hmem
  · intro h
    have hadd := getTableBookingsForDate_after_add_none table d 5 h
    refine ⟨?_, ?_, ?_, ?_, ?_⟩ <;> simp [isTableSlotAvailable, hadd]

/-- C1 witness: the conflict scenario evaluated on a concrete empty table. -/
theorem isTableSlotAvailable_spec_witness :
    isTableSlotAvailable (addTableBooking ⟨3, 4, true, []⟩ 0 5) 0 4 = false ∧
    isTableSlotAvailable (addTableBooking ⟨3, 4, true, []⟩ 0 5) 0 8 = true := by
  have h := (isTableSlotAvailable_spec ⟨3, 4, true, []⟩ 0 1).2 (by decide)
  exact ⟨h.1, h.2.2.2.2⟩

/-- C2 (code-bug evidence): `addTableBooking` accepts starting slots 8 and 9
and then inserts slot numbers 10 (and 11) into `bookedSlots`, which the
`tableBookingSchema` validator itself rejects (slots must lie in 1..9), so the
1..9 invariant is not preserved for those starting slots. -/
theorem addTableBooking_slot_span_violates_schema :
    (addTableBooking ⟨3, 4, true, []⟩ 0 8).tableBookings = [⟨0, [8, 9, 10]⟩] ∧
    bookedSlotsSchemaValid [8, 9, 10] = false ∧
    (addTableBooking ⟨3, 4, true, []⟩ 0 9).tableBookings = [⟨0, [9, 10, 11]⟩] ∧
    bookedSlotsSchemaValid [9, 10, 11] = false := by
  decide

/-! Lead-time policy evaluation lemmas. -/

lemma canModifyReservation_eval (d : JsTime) (slot : Int) (now : JsTime) (tc : TimeComponents)
    (htc : getTimeFromSlot slot = some tc) :
    canModifyReservation d slot now =
      (if getHoursDifference (setHoursMinutes d tc.hours tc.minutes) now < 1 then
        ⟨false, getHoursDifference (setHoursMinutes d tc.hours tc.minutes) now,
          some "Cannot modify reservation less than 1 hour before the original time"⟩
      else
        ⟨true, getHoursDifference (setHoursMinutes d tc.hours tc.minutes) now, none⟩) := by
  simp [canModifyReservation, createReservationDateTime, htc]

lemma isValidNewReservationTime_eval (d : JsTime) (slot : Int) (now : JsTime)
    (tc : TimeComponents) (htc : getTimeFromSlot slot = some tc) :
    isValidNewReservationTime d slot now =
      (if getHoursDifference (setHoursMinutes d tc.hours tc.minutes) now < 1 then
        ⟨false, getHoursDifference (setHoursMinutes d tc.hours tc.minutes) now,
          some "New reservation time must be at least 1 hour from now"⟩
      else
        ⟨true, getHoursDifference (setHoursMinutes d tc.hours tc.minutes) now, none⟩) := by
  simp [isValidNewReservationTime, createReservationDateTime, htc]

lemma canCancelReservation_eval (d : JsTime) (slot : Int) (now : JsTime) (tc : TimeComponents)
    (htc : getTimeFromSlot slot = some tc) :
    canCancelReservation d slot now =
      (if getHoursDifference (setHoursMinutes d tc.hours tc.minutes) now < 2 then
        ⟨false, getHoursDifference (setHoursMinutes d tc.hours tc.minutes) now,
          some "Reservations can only be cancelled at least 2 hours in advance"⟩
      else
        ⟨true, getHoursDifference (setHoursMinutes d tc.hours tc.minutes) now, none⟩) := by
  simp [canCancelReservation, createReservationDateTime, htc]

/-- C4: for every valid slot 1..9 and injected `now`, the modify and new-time
policies allow exactly when the signed hour difference between the slot's
concrete datetime and `now` is at least 1, the cancel policy exactly when it is
at least 2, and every result's `hoursUntil` is that exact difference.  The
embedded policies are pure functions of the explicit `now` argument by
construction, mirroring the JS default parameter being read only when `now` is
omitted. -/
theorem leadTimePolicies_spec (d : JsTime) (slot : Int) (now : JsTime)
    (hlo : 1 ≤ slot) (hhi : slot ≤ 9) :
    ∃ target, createReservationDateTime d slot = some target ∧
      ((canModifyReservation d slot now).canModify = true ↔
        1 ≤ getHoursDifference target now) ∧
      (canModifyReservation d slot now).hoursUntil = getHoursDifference target now ∧
      ((isValidNewReservationTime d slot now).isValid = true ↔
        1 ≤ getHoursDifference target now) ∧
      (isValidNewReservationTime d slot now).hoursUntil = getHoursDifference target now ∧
      ((canCancelReservation d slot now).canCancel = true ↔
        2 ≤ getHoursDifference target now) ∧
      (canCancelReservation d slot now).hoursUntil = getHoursDifference target now := by
  have hex : ∃ tc, getTimeFromSlot slot = some tc := by
    interval_cases slot <;> exact ⟨_, rfl⟩
  obtain ⟨tc, htc⟩ := hex
  refine ⟨setHoursMinutes d tc.hours tc.minutes, by simp [createReservationDateTime, htc],
    ?_, ?_, ?_, ?_, ?_, ?_⟩
  · rw [canModifyReservation_eval d slot now tc htc]
    split_ifs with hlt
    · exact iff_of_false (by simp) (fun hge => absurd hlt (not_lt.mpr hge))
    · exact iff_of_true rfl (not_lt.mp hlt)
  · rw [canModifyReservation_eval d slot now tc htc]
    split_ifs with hlt <;> rfl
  · rw [isValidNewReservationTime_eval d slot now tc htc]
    split_ifs with hlt
    · exact iff_of_false (by simp) (fun hge => absurd hlt (not_lt.mpr hge))
    · exact iff_of_true rfl (not_lt.mp hlt)
  · rw [isValidNewReservationTime_eval d slot now tc htc]
    split_ifs with hlt <;> rfl
  · rw [canCancelReservation_eval d slot now tc htc]
    split_ifs with hlt
    · exact iff_of_false (by simp) (fun hge => absurd hlt (not_lt.mpr hge))
    · exact iff_of_true rfl (not_lt.mp hlt)
  · rw [canCancelReservation_eval d slot now tc htc]
    split_ifs with hlt <;> rfl

/-- C4 witness: the policies evaluated at midnight of day 0 with slot 5. -/
theorem leadTimePolicies_spec_witness :
    (1 : Int) ≤ 5 ∧ (5 : Int) ≤ 9 ∧
    (∃ target, createReservationDateTime 0 5 = some target ∧
      ((canModifyReservation 0 5 0).canModify = true ↔
        1 ≤ getHoursDifference target 0) ∧
      (canModifyReservation 0 5 0).hoursUntil = getHoursDifference target 0 ∧
      ((isValidNewReservationTime 0 5 0).isValid = true ↔
        1 ≤ getHoursDifference target 0) ∧
      (isValidNewReservationTime 0 5 0).hoursUntil = getHoursDifference target 0 ∧
      ((canCancelReservation 0 5 0).canCancel = true ↔
        2 ≤ getHoursDifference target 0) ∧
      (canCancelReservation 0 5 0).hoursUntil = getHoursDifference target 0) :=
  ⟨by decide, by decide, leadTimePolicies_spec 0 5 0 (by decide) (by decide)⟩

lemma getSlotByNumber_eq_none (slot : Int) (h : slot < 1 ∨ 9 < slot) :
    getSlotByNumber slot = none := by
  apply List.find?_eq_none.mpr
  intro x hx
  simp only [TIME_SLOTS] at hx
  fin_cases hx <;> simp <;> omega

lemma getTimeFromSlot_eq_none (slot : Int) (h : slot < 1 ∨ 9 < slot) :
    getTimeFromSlot slot = none := by
  simp [getTimeFromSlot, getSlotByNumber_eq_none slot h]

/-- C8: for any slot number outside 1..9, the three policies return total
failure results — allowed flag false, `hoursUntil` 0 and their respective fixed
messages — rather than failing; in the embedding they are total functions by
construction, mirroring the JS code returning early instead of throwing. -/
theorem invalidSlot_policies (d : JsTime) (slot : Int) (now : JsTime)
    (h : slot < 1 ∨ 9 < slot) :
    canModifyReservation d slot now = ⟨false, 0, some "Invalid original slot time"⟩ ∧
    canCancelReservation d slot now = ⟨false, 0, some "Invalid reservation slot time"⟩ ∧
    isValidNewReservationTime d slot now = ⟨false, 0, some "Invalid new slot time"⟩ := by
  have hn := getTimeFromSlot_eq_none slot h
  have hc : createReservationDateTime d slot = none := by
    simp [createReservationDateTime, hn]
  exact ⟨by simp [canModifyReservation, hc], by simp [canCancelReservation, hc],
    by simp [isValidNewReservationTime, hc]⟩

/-- C8 witness: the failure results at the invalid slot 0. -/
theorem invalidSlot_policies_witness :
    ((0 : Int) < 1 ∨ 9 < (0 : Int)) ∧
    canModifyReservation 0 0 0 = ⟨false, 0, some "Invalid original slot time"⟩ ∧
    canCancelReservation 0 0 0 = ⟨false, 0, some "Invalid reservation slot time"⟩ ∧
    isValidNewReservationTime 0 0 0 = ⟨false, 0, some "Invalid new slot time"⟩ :=
  ⟨Or.inl (by decide), (invalidSlot_policies 0 0 0 (Or.inl (by decide))).1,
    (invalidSlot_policies 0 0 0 (Or.inl (by decide))).2.1,
    (invalidSlot_policies 0 0 0 (Or.inl (by decide))).2.2⟩

/-- C5: when the modify check on the reservation's current date/slot fails,
`validateReservationUpdate` returns invalid with exactly that check's message
as the only error and never evaluates the proposed time (the result is the same
for every proposal); when it passes, the proposed time is evaluated exactly
when a new date or slot is (JS-truthily) proposed, with unchanged fields
defaulted to the current values, appending its message exactly when it is
disallowed; and the result is valid exactly when the error list is empty. -/
theorem validateReservationUpdate_spec (r : Reservation) (u : UpdateData) (now : JsTime) :
    ((canModifyReservation r.date r.slot now).canModify = false →
      validateReservationUpdate r u now =
        ⟨false, [(canModifyReservation r.date r.slot now).message.getD "undefined"]⟩ ∧
      (∀ u2 : UpdateData, validateReservationUpdate r u2 now =
        validateReservationUpdate r u now)) ∧
    ((canModifyReservation r.date r.slot now).canModify = true →
      (dateTruthy u.date || slotTruthy u.slot) = false →
      validateReservationUpdate r u now = ⟨true, []⟩) ∧
    ((canModifyReservation r.date r.slot now).canModify = true →
      (dateTruthy u.date || slotTruthy u.slot) = true →
      validateReservationUpdate r u now =
        (if (isValidNewReservationTime (jsOrDate u.date r.date) (jsOrSlot u.slot r.slot)
              now).isValid = true then
          ⟨true, []⟩
        else
          ⟨false, [(isValidNewReservationTime (jsOrDate u.date r.date)
            (jsOrSlot u.slot r.slot) now).message.getD "undefined"]⟩)) ∧
    ((validateReservationUpdate r u now).isValid = true ↔
      (validateReservationUpdate r u now).errors = []) := by
  refine ⟨?_, ?_, ?_, ?_⟩
  · intro hmc
    exact ⟨by simp [validateReservationUpdate, hmc],
      fun u2 => by simp [validateReservationUpdate, hmc]⟩
  · intro hmc hcond
    simp [validateReservationUpdate, hmc, hcond]
  · intro hmc hcond
    by_cases hv : (isValidNewReservationTime (jsOrDate u.date r.date)
        (jsOrSlot u.slot r.slot) now).isValid = true
    · simp [validateReservationUpdate, hmc, hcond, hv]
    · simp [validateReservationUpdate, hmc, hcond, hv]
  · simp only [validateReservationUpdate]
    exact List.isEmpty_iff

/-- C5 witness: a reservation whose modify window has closed (now equals the
slot time) yields exactly the modify-check message, for a proposal that is
never evaluated. -/
theorem validateReservationUpdate_spec_witness :
    (canModifyReservation 0 5 72000000).canModify = false ∧
    validateReservationUpdate ⟨0, 5⟩ ⟨some 86400000, none⟩ 72000000 =
      ⟨false, [(canModifyReservation 0 5 72000000).message.getD "undefined"]⟩ := by
  have hmf : (canModifyReservation (0 : Int) 5 72000000).canModify = false := by
    have h1 : createReservationDateTime 0 5 = some 72000000 := by decide
    simp [canModifyReservation, h1, getHoursDifference]
  exact ⟨hmf,
    ((validateReservationUpdate_spec ⟨0, 5⟩ ⟨some 86400000, none⟩ 72000000).1 hmf).1⟩

/-- C10: when the modify check passes, an update proposing no change (absent
fields, or the falsy slot 0) validates successfully with no errors — the
proposed time is never checked — and the user-update entry point's slot guard
likewise does not reject slot 0 or an absent slot. -/
theorem falsyUpdate_skipsValidation (r : Reservation) (now : JsTime)
    (h : (canModifyReservation r.date r.slot now).canModify = true) :
    validateReservationUpdate r ⟨none, some 0⟩ now = ⟨true, []⟩ ∧
    validateReservationUpdate r ⟨none, none⟩ now = ⟨true, []⟩ ∧
    updateSlotGuardRejects (some 0) = false ∧
    updateSlotGuardRejects none = false := by
  refine ⟨?_, ?_, by decide, by decide⟩ <;>
    simp [validateReservationUpdate, h, dateTruthy, slotTruthy]

/-- C10 witness: evaluated at a reservation 20 hours in the future. -/
theorem falsyUpdate_skipsValidation_witness :
    (canModifyReservation 0 5 0).canModify = true ∧
    validateReservationUpdate ⟨0, 5⟩ ⟨none, some 0⟩ 0 = ⟨true, []⟩ ∧
    validateReservationUpdate ⟨0, 5⟩ ⟨none, none⟩ 0 = ⟨true, []⟩ := by
  have hcm : (canModifyReservation (0 : Int) 5 0).canModify = true := by
    have h1 : createReservationDateTime 0 5 = some 72000000 := by decide
    simp [canModifyReservation, h1, getHoursDifference]
    norm_num
  have h := falsyUpdate_skipsValidation ⟨0, 5⟩ 0 hcm
  exact ⟨hcm, h.1, h.2.1⟩

/-- C6 (amended): for stored tables that satisfy the schema's capacity minimum
and whose table numbers all lie in the hardcoded 1..12 partition universe,
`findAvailableTables` lists exactly the numbers of the active tables whose slot
is available, `availableTables` and `occupiedTables` are disjoint, and their
union is exactly the numbers 1..12; Scenario D holds concretely.  (Without the
1..12 restriction the union claim fails — see the counterexample.) -/
theorem findAvailableTables_spec (tables : List Table) (d : JsTime) (s cap : Int)
    (hcap : ∀ t ∈ tables, 1 ≤ t.capacity)
    (hnum : ∀ t ∈ tables, 1 ≤ t.tableNumber ∧ t.tableNumber ≤ 12) :
    (findAvailableTables tables d s cap).availableTables =
      (tables.filter (fun t => t.isActive && isTableSlotAvailable t d s)).map
        (fun t => t.tableNumber) ∧
    (∀ n : Int, n ∈ (findAvailableTables tables d s cap).availableTables →
      n ∉ (findAvailableTables tables d s cap).occupiedTables) ∧
    (∀ n : Int, (n ∈ (findAvailableTables tables d s cap).availableTables ∨
        n ∈ (findAvailableTables tables d s cap).occupiedTables) ↔ (1 ≤ n ∧ n ≤ 12)) ∧
    3 ∈ (findAvailableTables scenarioTables 0 5 1).occupiedTables ∧
    (findAvailableTables scenarioTables 0 5 1).availableTables =
      [1, 2, 4, 5, 6, 7, 8, 9, 10, 11, 12] := by
  have havail : (findAvailableTables tables d s cap).availableTables =
      (tables.filter (fun t => t.isActive && isTableSlotAvailable t d s)).map
        (fun t => t.tableNumber) := by
    simp only [findAvailableTables, List.filter_filter]
    congr 1
    apply List.filter_congr
    intro x hx
    have hc := hcap x hx
    simp [hc, Bool.and_comm]
  have hoccmem : ∀ n : Int, n ∈ (findAvailableTables tables d s cap).occupiedTables ↔
      (n ∈ ((List.range 12).map (fun i => (i : Int) + 1)) ∧
        n ∉ (findAvailableTables tables d s cap).availableTables) := by
    intro n
    simp only [findAvailableTables, List.mem_filter, contains_eq_mem]
    simp
  refine ⟨havail, ?_, ?_, by decide, by decide⟩
  · intro n hav hocc
    exact (((hoccmem n).mp hocc).2) hav
  · intro n
    constructor
    · rintro (hav | hocc)
      · rw [havail] at hav
        obtain ⟨t, ht, rfl⟩ := List.mem_map.mp hav
        exact hnum t (List.mem_filter.mp ht).1
      · have hall : ∀ m ∈ ((List.range 12).map (fun i => (i : Int) + 1)),
            1 ≤ m ∧ m ≤ 12 := by decide
        exact hall n ((hoccmem n).mp hocc).1
    · rintro ⟨h1, h2⟩
      by_cases hav : n ∈ (findAvailableTables tables d s cap).availableTables
      · exact Or.inl hav
      · refine Or.inr ((hoccmem n).mpr ⟨?_, hav⟩)
        interval_cases n <;> decide

/-- C6 witness: the amended spec applied to the Scenario D tables. -/
theorem findAvailableTables_spec_witness :
    (findAvailableTables scenarioTables 0 5 1).availableTables =
      (scenarioTables.filter (fun t => t.isActive && isTableSlotAvailable t 0 5)).map
        (fun t => t.tableNumber) :=
  (findAvailableTables_spec scenarioTables 0 5 1 (by decide) (by decide)).1

/-- C6 counterexample: a stored table numbered 13 (legal per the schema, which
allows numbers up to 22) lands in `availableTables`, so the union of
`availableTables` and `occupiedTables` is not the table numbers 1..12. -/
theorem findAvailableTables_union_counterexample :
    ∃ n : Int, (n ∈ (findAvailableTables [⟨13, 4, true, []⟩] 0 5 1).availableTables ∨
      n ∈ (findAvailableTables [⟨13, 4, true, []⟩] 0 5 1).occupiedTables) ∧
      ¬(1 ≤ n ∧ n ≤ 12) :=
  ⟨13, by decide⟩

end RestOh
